import Mathlib

/-!
Verification development for the `file-search-ez` document question-answering
client. The data model and the UI operations are embedded shallowly from the
TypeScript sources (`components/ChatInterface.tsx`, `components/ProgressBar.tsx`);
the service / session-orchestration layer (`services/geminiService.ts`,
`App.tsx`) is not present in the source tree, so those operations are modelled
from the specification (each such definition carries a doc comment starting
with `Modelled from the spec:`).
-/

namespace FileSearchEz

/-! ## Data model (types.ts as documented in the repository README) -/

/-- Role of a chat message: `'user' | 'model'` (types.ts). -/
inductive Role where
  | user : Role
  | model : Role
deriving DecidableEq, Repr

/-- The `retrievedContext` of a grounding chunk, holding an optional `text`
field (types.ts). The optional field is embedded as `Option String`. -/
structure RetrievedContext where
  text : Option String
deriving DecidableEq, Repr

/-- A `GroundingChunk` (types.ts): an optional `retrievedContext` holding an
optional `text`. -/
structure GroundingChunk where
  retrievedContext : Option RetrievedContext
deriving DecidableEq, Repr

/-- A `ChatMessage` (types.ts): role, content parts (text segments), optional
grounding chunks. -/
structure ChatMessage where
  role : Role
  parts : List String
  groundingChunks : Option (List GroundingChunk)
deriving DecidableEq, Repr

/-- A `QueryResult` (types.ts): generated answer text plus source citations. -/
structure QueryResult where
  text : String
  groundingChunks : List GroundingChunk
deriving DecidableEq, Repr

/-! ## Citation rendering (ChatInterface.tsx, lines 171-192)

The JSX renders, for each chunk of `message.groundingChunks`, a button
`Source {chunkIndex + 1}` guarded by the JavaScript truthiness test
`chunk.retrievedContext?.text &&` — so a chunk contributes a clickable
button exactly when `retrievedContext` is present, its `text` is present and
the text is a non-empty string (an empty string is falsy in JavaScript).
Clicking the button calls `handleSourceClick` with that chunk's own text. -/

/-- The displayable source text of a grounding chunk: `some t` exactly when the
JavaScript condition `chunk.retrievedContext?.text` is truthy, i.e. the chunk
carries a non-empty source text. -/
def chunkDisplayText (c : GroundingChunk) : Option String :=
  match c.retrievedContext with
  | none => none
  | some rc =>
    match rc.text with
    | none => none
    | some t => if t = "" then none else some t

/-- One rendered source-citation button: its label (the `chunkIndex + 1` shown
as `Source n`) and the text handed to `handleSourceClick` when clicked. -/
structure SourceButton where
  label : Nat
  sourceText : String
deriving DecidableEq, Repr

/-- The list of source buttons produced by
`message.groundingChunks.map((chunk, chunkIndex) => chunk.retrievedContext?.text && <button ...>)`
(ChatInterface.tsx lines 175-189): chunks are enumerated in order, chunks
without displayable text render nothing, and each remaining chunk renders a
button labelled with its original index plus one. -/
def renderCitations (chunks : List GroundingChunk) : List SourceButton :=
  chunks.enum.filterMap fun p =>
    (chunkDisplayText p.2).map fun t => { label := p.1 + 1, sourceText := t }

/-- The source buttons rendered for a chat message (ChatInterface.tsx lines
171-192): the sources block appears only for a model message whose
`groundingChunks` is present and non-empty. -/
def renderedSourceButtons (m : ChatMessage) : List SourceButton :=
  if m.role = Role.model then
    match m.groundingChunks with
    | some chunks => if 0 < chunks.length then renderCitations chunks else []
    | none => []
  else []

/-! ## ProgressBar (ProgressBar.tsx, lines 18-19)

`const percentage = total > 0 ? (progress / total) * 100 : 0;`
JavaScript numbers are embedded as rationals. -/

/-- The fill percentage computed by `ProgressBar` (ProgressBar.tsx line 19). -/
def percentage (progress total : ℚ) : ℚ :=
  if 0 < total then progress / total * 100 else 0

/-! ## Chat form submission (ChatInterface.tsx, lines 110-116)

`handleSubmit` prevents the default, and only when `query.trim()` is truthy
(a non-empty trimmed string) calls `onSendMessage(query)` — with the
untrimmed query — and clears the input with `setQuery('')`. -/

/-- JavaScript whitespace as far as `String.prototype.trim` is concerned,
restricted to the common ASCII whitespace characters. -/
def jsWhitespace (c : Char) : Bool :=
  c = ' ' || c = '\t' || c = '\n' || c = '\r'

/-- Removes leading and trailing whitespace from a character list. -/
def trimChars (l : List Char) : List Char :=
  ((l.dropWhile jsWhitespace).reverse.dropWhile jsWhitespace).reverse

/-- The embedding of `query.trim()`: removes leading and trailing whitespace. -/
def jsTrim (s : String) : String :=
  String.mk (trimChars s.data)

/-- Result of one chat-form submission: the message passed to `onSendMessage`
(if it was invoked at all) and the content of the input field afterwards. -/
structure SubmitOutcome where
  sent : Option String
  newQuery : String
deriving DecidableEq, Repr

/-- The `handleSubmit` handler (ChatInterface.tsx lines 110-116), as a function of the
current input-field content. -/
def handleSubmit (query : String) : SubmitOutcome :=
  if jsTrim query ≠ "" then { sent := some query, newQuery := "" }
  else { sent := none, newQuery := query }

/-! ## Upload polling (services/geminiService.ts, `uploadToRagStore`)

The service layer is not in the source tree; its polling loop is quoted in
the repository documentation (SETUP.md lines 251-255):

    let op = await ai.fileSearchStores.uploadToFileSearchStore({...});
    while (!op.done) {
        await delay(3000);
        op = await ai.operations.get({ operation: op });
    }

The remote operation's successive statuses are modelled as a function
`getOp : Nat → Operation` giving the status observed by the k-th
`ai.operations.get` call; the loop is made total with fuel. In the remote
API a failed operation reports `done = true` together with an error payload,
so "done or error" terminal states are exactly the `done = true` statuses. -/

/-- An upload operation handle as the client sees it: the completion flag and
the optional error payload. -/
structure Operation where
  done : Bool
  error : Option String
deriving DecidableEq, Repr

/-- The observable outcome of one polling loop: the elapsed times (in
milliseconds since submission) at which each status poll was issued, and the
final operation status the loop ended with. -/
structure PollResult where
  pollTimes : List Nat
  finalOp : Operation
deriving DecidableEq, Repr

/-- Modelled from the spec: the polling loop of `uploadToRagStore`
(services/geminiService.ts, absent from src/; quoted in SETUP.md lines
251-255). While the current status is not done, wait 3000 ms and poll the
handle again; `t` is elapsed time, `k` the index of the next poll, `fuel`
bounds the recursion (`none` models the unbounded loop still running). -/
def pollLoop (getOp : Nat → Operation) : Operation → Nat → Nat → Nat → Option PollResult
  | op, _, _, 0 => if op.done then some { pollTimes := [], finalOp := op } else none
  | op, t, k, fuel + 1 =>
    if op.done then some { pollTimes := [], finalOp := op }
    else
      match pollLoop getOp (getOp k) (t + 3000) (k + 1) fuel with
      | some r => some { pollTimes := (t + 3000) :: r.pollTimes, finalOp := r.finalOp }
      | none => none

/-! ## Sequential upload orchestration (App.tsx `handleUpload`)

App.tsx is absent from src/; the orchestration is modelled from the spec. -/

/-- A file selected for upload: only its name matters to the orchestration. -/
structure UFile where
  name : String
deriving DecidableEq, Repr

/-- An observable event of the upload orchestration: an upload submission for
the file at (0-based) input position `index`, a status poll for that file's
operation handle, or a progress report `(currentIndex, totalFiles,
currentFileName)`. -/
inductive UploadEvent where
  | submit (index : Nat) (name : String) : UploadEvent
  | poll (index : Nat) (tick : Nat) : UploadEvent
  | progress (current total : Nat) (name : String) : UploadEvent
deriving DecidableEq, Repr

/-- The events of processing one file: its submission, the progress report
`(i + 1, total, name)` issued as the file starts, then that file's polls. -/
def fileEvents (i total : Nat) (nm : String) (npolls : Nat) : List UploadEvent :=
  UploadEvent.submit i nm :: UploadEvent.progress (i + 1) total nm ::
    (List.range npolls).map fun t => UploadEvent.poll i (t + 1)

/-- Modelled from the spec: the upload orchestration of App.tsx (absent from
src/) — "upload N files sequentially, tracking per-file progress"; files are
processed strictly one after another in user-selected order, and each file's
polling completes before the next file is submitted. `polls i` is the number
of status polls the i-th file's operation needed. -/
def uploadAll (files : List UFile) (polls : Nat → Nat) : List UploadEvent :=
  files.enum.flatMap fun p => fileEvents p.1 files.length p.2.name (polls p.1)

/-- The input position a trace event belongs to. -/
def eventIndex : UploadEvent → Nat
  | UploadEvent.submit i _ => i
  | UploadEvent.poll i _ => i
  | UploadEvent.progress c _ _ => c - 1

/-- Extracts an upload submission from a trace event. -/
def subFn : UploadEvent → Option (Nat × String)
  | UploadEvent.submit i nm => some (i, nm)
  | _ => none

/-- The upload submissions of a trace, as (input position, file name) pairs. -/
def submissionsOf (trace : List UploadEvent) : List (Nat × String) :=
  trace.filterMap subFn

/-! ## Session state and orchestration (App.tsx, absent from src/) -/

/-- Phase of the session lifecycle (spec §4.5). -/
inductive Phase where
  | noKey | keySelected | filesPending | uploading | ready | querying | uploadErr
deriving DecidableEq, Repr

/-- A remote side effect issued by the session orchestrator. -/
inductive Action where
  | deleteStore (id : String) : Action
  | createStore (displayName : String) : Action
deriving DecidableEq, Repr

/-- The session orchestrator's state: lifecycle phase, current store
identifier, chat transcript, pending error and query-loading flag. -/
structure SessionState where
  phase : Phase
  store : Option String
  history : List ChatMessage
  isQueryLoading : Bool
  queryError : Option String
deriving DecidableEq, Repr

/-- Modelled from the spec: the "new chat" handler of App.tsx (absent from
src/) — "deletes the previously active store before any new store is created,
and clears the transcript", transitioning back to `FilesPending`. It returns
the new state together with the remote actions it issues (a delete of the
active store when one exists; it never creates a store — creation happens
only later, in the upload flow). -/
def handleNewChat (s : SessionState) : SessionState × List Action :=
  ({ phase := Phase.filesPending, store := none, history := []
   , isQueryLoading := false, queryError := none }
  , match s.store with
    | some id => [Action.deleteStore id]
    | none => [])

/-- A user chat message with the given text (single text part, no chunks). -/
def userMsg (text : String) : ChatMessage :=
  { role := Role.user, parts := [text], groundingChunks := none }

/-- The model chat message built from a query result. -/
def modelMsg (r : QueryResult) : ChatMessage :=
  { role := Role.model, parts := [r.text], groundingChunks := some r.groundingChunks }

/-- Modelled from the spec: the query handler of App.tsx (absent from src/).
The user message is appended and the query issued; on success the model
message is appended, on `QueryError` no partial or placeholder model message
is appended — the error is kept for inline display and the loading flag is
cleared so the user may resubmit. `outcome` is the remote call's result. -/
def handleSendMessage (s : SessionState) (question : String)
    (outcome : Except String QueryResult) : SessionState :=
  let afterUser := s.history ++ [userMsg question]
  match outcome with
  | Except.ok r =>
    { s with history := afterUser ++ [modelMsg r]
           , isQueryLoading := false, queryError := none }
  | Except.error e =>
    { s with history := afterUser
           , isQueryLoading := false, queryError := some e }

/-! ## Suggestion generation (services/geminiService.ts, absent from src/) -/

/-- Strips a leading numbered-list marker such as `1.` or `3)` from a trimmed
line and trims the remainder. -/
def stripMarkerChars (l : List Char) : List Char :=
  let t := (trimChars l).dropWhile Char.isDigit
  let t2 :=
    match t with
    | c :: rest => if c = '.' || c = ')' then rest else t
    | [] => t
  trimChars t2

/-- Splits a character list at newline characters. -/
def splitLinesAux : List Char → List Char → List (List Char)
  | acc, [] => [acc.reverse]
  | acc, c :: rest =>
    if c = '\n' then acc.reverse :: splitLinesAux [] rest
    else splitLinesAux (c :: acc) rest

/-- Parses the newline-delimited answer text into discrete question strings,
discarding empty or malformed lines. -/
def parseQuestions (answer : String) : List String :=
  (splitLinesAux [] answer.data).filterMap fun line =>
    let q := stripMarkerChars line
    if q = [] then none else some (String.mk q)

/-- Modelled from the spec: `generateExampleQuestions`
(services/geminiService.ts, absent from src/) — issues one query and parses a
delimited list from the answer; best-effort: on any failure (remote error, or
an unparseable/empty answer) it returns the empty sequence rather than
propagating an error. `remote` is the remote call's outcome. -/
def generateExampleQuestions (remote : Except String String) : List String :=
  match remote with
  | Except.error _ => []
  | Except.ok answer => parseQuestions answer

/-! ## One query in flight (ChatInterface.tsx lines 236-255 + session loop)

The input carries `disabled={isQueryLoading}` and the send button
`disabled={isQueryLoading || !query.trim()}` (ChatInterface.tsx lines 243 and
247). A form submission can only be triggered through an enabled control
(Enter in the enabled input, or a click on the enabled button). The loading
flag's lifecycle (set when a query starts, cleared when it completes) lives
in App.tsx, absent from src/, and is modelled from the spec. -/

/-- The interface state relevant to query submission. -/
structure UiState where
  isQueryLoading : Bool
  query : String
  inFlight : Nat
deriving DecidableEq, Repr

/-- The disabled flag of the query input, which the source sets to
`isQueryLoading` (ChatInterface.tsx line 243). -/
def inputDisabled (s : UiState) : Bool := s.isQueryLoading

/-- The disabled flag of the send button, which the source sets to
`isQueryLoading || !query.trim()` (ChatInterface.tsx line 247). -/
def sendDisabled (s : UiState) : Bool := s.isQueryLoading || jsTrim s.query == ""

/-- A user-interface event: editing the query input, submitting the form, or
the outstanding query completing (with an answer or an error). -/
inductive UiEvent where
  | setQuery (q : String) : UiEvent
  | submitForm : UiEvent
  | complete : UiEvent
deriving DecidableEq, Repr

/-- Modelled from the spec together with ChatInterface.tsx: one step of the
interface. Editing requires the input to be enabled; a form submission
requires at least one enabled control to trigger it, and then runs
`handleSubmit`, which sends the message only when the trimmed query is
non-empty — starting a query sets the loading flag until `complete` clears
it. `none` means the event cannot occur in that state. -/
def uiStep (s : UiState) : UiEvent → Option UiState
  | UiEvent.setQuery q =>
    if inputDisabled s then none else some { s with query := q }
  | UiEvent.submitForm =>
    if inputDisabled s && sendDisabled s then none
    else if jsTrim s.query ≠ "" then
      some { isQueryLoading := true, query := "", inFlight := s.inFlight + 1 }
    else some s
  | UiEvent.complete =>
    if 0 < s.inFlight then
      some { s with isQueryLoading := false, inFlight := s.inFlight - 1 }
    else none

/-- The initial interface state: nothing loading, empty input, no query
outstanding. -/
def uiInit : UiState := { isQueryLoading := false, query := "", inFlight := 0 }

/-- Runs a sequence of events; an event that cannot occur leaves the state
unchanged. -/
def uiRun (s : UiState) : List UiEvent → UiState
  | [] => s
  | e :: es => uiRun ((uiStep s e).getD s) es

/-! ## Helper lemmas about citation rendering -/

/-- The source texts of the rendered buttons are exactly the displayable texts
of the chunks, in the order the remote response returned them. -/
lemma renderCitations_map_sourceText (chunks : List GroundingChunk) :
    (renderCitations chunks).map SourceButton.sourceText
      = chunks.filterMap chunkDisplayText := by
  rw [renderCitations, List.map_filterMap]
  have h1 : (fun p : ℕ × GroundingChunk =>
      Option.map SourceButton.sourceText
        ((chunkDisplayText p.2).map fun t => { label := p.1 + 1, sourceText := t }))
      = fun p : ℕ × GroundingChunk => chunkDisplayText p.2 := by
    funext p
    cases chunkDisplayText p.2 <;> rfl
  rw [h1]
  conv_rhs => rw [← List.enum_map_snd chunks]
  rw [List.filterMap_map]
  rfl

/-- Every chunk with displayable text yields a button labelled by its original
position plus one. -/
lemma mem_renderCitations_of_displayText (chunks : List GroundingChunk)
    (i : Nat) (c : GroundingChunk) (t : String)
    (hi : chunks[i]? = some c) (ht : chunkDisplayText c = some t) :
    ({ label := i + 1, sourceText := t } : SourceButton) ∈ renderCitations chunks := by
  rw [renderCitations, List.mem_filterMap]
  exact ⟨(i, c), List.mk_mem_enum_iff_getElem?.mpr hi, by rw [ht]; rfl⟩

/-- Every rendered button comes from the chunk at its label's position and
carries exactly that chunk's text. -/
lemma renderCitations_sound (chunks : List GroundingChunk)
    (b : SourceButton) (hb : b ∈ renderCitations chunks) :
    ∃ c, chunks[b.label - 1]? = some c ∧ chunkDisplayText c = some b.sourceText := by
  rw [renderCitations, List.mem_filterMap] at hb
  obtain ⟨⟨i, c⟩, hmem, hf⟩ := hb
  cases h : chunkDisplayText c with
  | none => rw [h] at hf; exact absurd hf (by simp)
  | some t =>
    rw [h] at hf
    simp only [Option.map_some'] at hf
    obtain rfl : ({ label := i + 1, sourceText := t } : SourceButton) = b :=
      Option.some.inj hf
    refine ⟨c, ?_, ?_⟩
    · simpa using List.mk_mem_enum_iff_getElem?.mp hmem
    · simpa using h

/-- The labels of the rendered buttons are strictly increasing: rendering
preserves the remote order of the chunks. -/
lemma renderCitations_labels_sorted (chunks : List GroundingChunk) :
    ((renderCitations chunks).map SourceButton.label).Pairwise (· < ·) := by
  have hp : List.Pairwise (fun p q : ℕ × GroundingChunk => p.1 < q.1) chunks.enum := by
    have h := List.pairwise_lt_range chunks.length
    rw [← List.enum_map_fst chunks] at h
    exact List.pairwise_map.mp h
  rw [renderCitations, List.map_filterMap, List.pairwise_filterMap]
  refine hp.imp ?_
  intro p q hpq b hb b2 hb2
  cases h : chunkDisplayText p.2 <;> rw [h] at hb <;> simp at hb
  cases h2 : chunkDisplayText q.2 <;> rw [h2] at hb2 <;> simp at hb2
  omega

/-- For a model message, the rendered sources block is `renderCitations` on
its (possibly absent, hence empty) chunk list. -/
lemma renderedSourceButtons_model (m : ChatMessage) (h : m.role = Role.model) :
    renderedSourceButtons m = renderCitations (m.groundingChunks.getD []) := by
  rw [renderedSourceButtons, if_pos h]
  cases hc : m.groundingChunks with
  | none => rfl
  | some chunks =>
    cases chunks with
    | nil => rfl
    | cons a l => simp [renderCitations]

/-- C3: For every query result, the grounding-fragment list rendered as
citations preserves the order returned by the remote response (the buttons'
source texts are the displayable chunk texts in remote order, and their
labels are strictly increasing); fragments lacking retrievable source text
are excluded from the citation-clickable set, but their positions still count
toward the labels of the remaining fragments (each button of a displayable
chunk is labelled with the chunk's original index plus one, and every button
points back to the chunk at its label's position); rendering is a total
function, so a fragment's missing text never fails the whole result. -/
theorem renderCitations_spec (chunks : List GroundingChunk) :
    ((renderCitations chunks).map SourceButton.sourceText
        = chunks.filterMap chunkDisplayText)
  ∧ (∀ i c t, chunks[i]? = some c → chunkDisplayText c = some t →
      ({ label := i + 1, sourceText := t } : SourceButton) ∈ renderCitations chunks)
  ∧ (∀ b ∈ renderCitations chunks,
      ∃ c, chunks[b.label - 1]? = some c ∧ chunkDisplayText c = some b.sourceText)
  ∧ ((renderCitations chunks).map SourceButton.label).Pairwise (· < ·) :=
  ⟨renderCitations_map_sourceText chunks,
   fun i c t hi ht => mem_renderCitations_of_displayText chunks i c t hi ht,
   fun b hb => renderCitations_sound chunks b hb,
   renderCitations_labels_sorted chunks⟩

/-- Witness for C3 at a concrete chunk list: the middle chunk lacks text, the
third chunk keeps its label `3`. -/
theorem renderCitations_spec_witness :
    ({ label := 3, sourceText := "gamma" } : SourceButton) ∈ renderCitations
      [ { retrievedContext := some { text := some "alpha" } }
      , { retrievedContext := none }
      , { retrievedContext := some { text := some "gamma" } } ] :=
  (renderCitations_spec
      [ { retrievedContext := some { text := some "alpha" } }
      , { retrievedContext := none }
      , { retrievedContext := some { text := some "gamma" } } ]).2.1 2
    { retrievedContext := some { text := some "gamma" } } "gamma" rfl rfl

/-- C8: For every chat message with role model, either it has zero grounding
fragments (then no source button is rendered), or every one of its fragments
that carries displayable text is rendered as its own independently clickable
source button (labelled by the fragment's position, carrying exactly that
fragment's text as the click payload); fragments are shown in the insertion
order of the remote response. -/
theorem model_message_sources (m : ChatMessage) (h : m.role = Role.model) :
    (m.groundingChunks.getD [] = [] → renderedSourceButtons m = [])
  ∧ (∀ i c t, (m.groundingChunks.getD [])[i]? = some c → chunkDisplayText c = some t →
      ({ label := i + 1, sourceText := t } : SourceButton) ∈ renderedSourceButtons m)
  ∧ ((renderedSourceButtons m).map SourceButton.sourceText
      = (m.groundingChunks.getD []).filterMap chunkDisplayText)
  ∧ (∀ b ∈ renderedSourceButtons m,
      ∃ c, (m.groundingChunks.getD [])[b.label - 1]? = some c
        ∧ chunkDisplayText c = some b.sourceText) := by
  rw [renderedSourceButtons_model m h]
  refine ⟨?_, ?_, ?_, ?_⟩
  · intro he; rw [he]; rfl
  · intro i c t hi ht; exact mem_renderCitations_of_displayText _ i c t hi ht
  · exact renderCitations_map_sourceText _
  · intro b hb; exact renderCitations_sound _ b hb

/-- Witness for C8 at a concrete model message with one text-less fragment. -/
theorem model_message_sources_witness :
    ({ label := 1, sourceText := "cited passage" } : SourceButton) ∈ renderedSourceButtons
      { role := Role.model, parts := ["answer"]
      , groundingChunks := some
          [ { retrievedContext := some { text := some "cited passage" } }
          , { retrievedContext := some { text := none } } ] } :=
  (model_message_sources
      { role := Role.model, parts := ["answer"]
      , groundingChunks := some
          [ { retrievedContext := some { text := some "cited passage" } }
          , { retrievedContext := some { text := none } } ] } rfl).2.1 0
    { retrievedContext := some { text := some "cited passage" } } "cited passage" rfl rfl

/-- C9: For all ProgressBar inputs, the rendered fill percentage equals
`(progress / total) * 100` when `total > 0` and equals `0` when `total = 0`:
the division is guarded, so a zero total never produces an undefined width. -/
theorem percentage_spec (progress total : ℚ) :
    (0 < total → percentage progress total = progress / total * 100)
  ∧ (total = 0 → percentage progress total = 0) := by
  constructor
  · intro h; rw [percentage, if_pos h]
  · intro h; rw [percentage, if_neg (by rw [h]; exact lt_irrefl 0)]

/-- Witness for C9 at `(progress, total) = (2, 4)` and `(3, 0)`. -/
theorem percentage_spec_witness :
    percentage 2 4 = 2 / 4 * 100 ∧ percentage 3 0 = 0 :=
  ⟨(percentage_spec 2 4).1 (by norm_num), (percentage_spec 3 0).2 rfl⟩

/-- C10: For every submit of the chat form, `onSendMessage` is invoked iff the
query text is non-empty after trimming; when invoked it receives the untrimmed
query text and the input field is cleared, and a whitespace-only submission
sends nothing and leaves the field as it was. -/
theorem handleSubmit_spec (query : String) :
    ((handleSubmit query).sent.isSome ↔ jsTrim query ≠ "")
  ∧ (jsTrim query ≠ "" →
      (handleSubmit query).sent = some query ∧ (handleSubmit query).newQuery = "")
  ∧ (jsTrim query = "" →
      (handleSubmit query).sent = none ∧ (handleSubmit query).newQuery = query) := by
  by_cases h : jsTrim query = "" <;>
    simp [handleSubmit, h]

/-- Witness for C10 at a concrete padded query and a whitespace-only query. -/
theorem handleSubmit_spec_witness :
    ((handleSubmit " What is X? ").sent = some " What is X? "
      ∧ (handleSubmit " What is X? ").newQuery = "")
  ∧ ((handleSubmit "   ").sent = none ∧ (handleSubmit "   ").newQuery = "   ") :=
  ⟨(handleSubmit_spec " What is X? ").2.1 (by decide),
   (handleSubmit_spec "   ").2.2 (by decide)⟩

/-- C4: Performing "new chat" always deletes the previously active store
before any new store is created (the handler issues the delete of the active
store and never issues a store creation, so any later creation follows the
delete) and clears the transcript; performing it twice in succession with no
files re-added leaves the session in the `FilesPending` state with an empty
transcript and no dangling store reference, the second run issuing no remote
action at all. -/
theorem handleNewChat_spec (s : SessionState) :
    (∀ id, s.store = some id → (handleNewChat s).2 = [Action.deleteStore id])
  ∧ (∀ dn, Action.createStore dn ∉ (handleNewChat s).2)
  ∧ (handleNewChat s).1.phase = Phase.filesPending
  ∧ (handleNewChat s).1.history = []
  ∧ (handleNewChat s).1.store = none
  ∧ (handleNewChat (handleNewChat s).1).1.phase = Phase.filesPending
  ∧ (handleNewChat (handleNewChat s).1).1.history = []
  ∧ (handleNewChat (handleNewChat s).1).1.store = none
  ∧ (handleNewChat (handleNewChat s).1).2 = [] := by
  refine ⟨?_, ?_, rfl, rfl, rfl, rfl, rfl, rfl, rfl⟩
  · intro id hid
    rw [handleNewChat]
    rw [hid]
  · intro dn hmem
    rw [handleNewChat] at hmem
    cases hs : s.store <;> rw [hs] at hmem <;> simp at hmem

/-- Witness for C4 at a concrete `Ready` session holding a store and a
transcript. -/
theorem handleNewChat_spec_witness :
    (handleNewChat
      { phase := Phase.ready, store := some "fileSearchStores/abc123"
      , history := [userMsg "hello"], isQueryLoading := false
      , queryError := none }).2 = [Action.deleteStore "fileSearchStores/abc123"] :=
  (handleNewChat_spec
      { phase := Phase.ready, store := some "fileSearchStores/abc123"
      , history := [userMsg "hello"], isQueryLoading := false
      , queryError := none }).1 "fileSearchStores/abc123" rfl

/-- C6: For every invocation of suggestion generation, any failure — a remote
error, or an unparseable or empty answer — yields the empty sequence of
suggestions rather than a propagated error (the function is total, so no
error is ever surfaced), and every suggestion it does return is a non-empty
string. -/
theorem generateExampleQuestions_spec :
    (∀ e, generateExampleQuestions (Except.error e) = [])
  ∧ generateExampleQuestions (Except.ok "") = []
  ∧ (∀ ans q, q ∈ generateExampleQuestions (Except.ok ans) → q ≠ "") := by
  refine ⟨fun e => rfl, by decide, ?_⟩
  intro ans q hq
  rw [generateExampleQuestions, parseQuestions, List.mem_filterMap] at hq
  obtain ⟨line, _, hf⟩ := hq
  by_cases hqe : stripMarkerChars line = []
  · rw [if_pos hqe] at hf
    exact absurd hf (by simp)
  · rw [if_neg hqe] at hf
    obtain rfl : String.mk (stripMarkerChars line) = q := Option.some.inj hf
    intro habs
    exact hqe (by simpa [String.ext_iff] using habs)

/-- Witness for C6: a remote error yields no suggestions. -/
theorem generateExampleQuestions_spec_witness :
    generateExampleQuestions (Except.error "quota exceeded") = []
  ∧ ("What is X?" ∈ generateExampleQuestions (Except.ok "1. What is X?\n\n") →
      "What is X?" ≠ "") :=
  ⟨generateExampleQuestions_spec.1 "quota exceeded",
   generateExampleQuestions_spec.2.2 "1. What is X?\n\n" "What is X?"⟩

/-- C7: Whenever a query fails with a `QueryError`, the transcript gains no
partial or placeholder model message (its model messages are exactly those
from before the query; only the user's own question was appended), the user
is shown an inline error, and the loading flag is cleared so the user may
resubmit. -/
theorem handleSendMessage_queryError (s : SessionState) (question e : String) :
    ((handleSendMessage s question (Except.error e)).history
        = s.history ++ [userMsg question])
  ∧ ((handleSendMessage s question (Except.error e)).history.filter
        (fun m => m.role == Role.model)
      = s.history.filter (fun m => m.role == Role.model))
  ∧ (handleSendMessage s question (Except.error e)).queryError = some e
  ∧ (handleSendMessage s question (Except.error e)).isQueryLoading = false := by
  refine ⟨rfl, ?_, rfl, rfl⟩
  show (s.history ++ [userMsg question]).filter (fun m => m.role == Role.model)
      = s.history.filter (fun m => m.role == Role.model)
  rw [List.filter_append]
  simp [userMsg]

/-! ## C5: the invariant machinery for "at most one query in flight" -/

/-- The session invariant: at most one query outstanding, and the loading
flag tracks exactly whether one is. -/
def UiInv (s : UiState) : Prop :=
  s.inFlight ≤ 1 ∧ (s.isQueryLoading = true ↔ s.inFlight = 1)

/-- Every interface step preserves the invariant. -/
lemma uiStep_inv {s s2 : UiState} (hs : UiInv s) (e : UiEvent)
    (h : uiStep s e = some s2) : UiInv s2 := by
  obtain ⟨h1, h2⟩ := hs
  cases e with
  | setQuery q =>
    rw [uiStep] at h
    by_cases hd : inputDisabled s
    · rw [if_pos hd] at h; exact absurd h (by simp)
    · rw [if_neg hd] at h
      obtain rfl := Option.some.inj h
      exact ⟨h1, h2⟩
  | submitForm =>
    rw [uiStep] at h
    by_cases hd : (inputDisabled s && sendDisabled s) = true
    · rw [if_pos hd] at h; exact absurd h (by simp)
    · rw [if_neg hd] at h
      have hload : s.isQueryLoading = false := by
        cases hl : s.isQueryLoading
        · rfl
        · exact absurd (by simp [inputDisabled, sendDisabled, hl]) hd
      have hzero : s.inFlight = 0 := by
        have := mt h2.mpr (by simp [hload])
        omega
      by_cases hq : jsTrim s.query ≠ ""
      · rw [if_pos hq] at h
        obtain rfl := Option.some.inj h
        exact ⟨by simpa using hzero, by simp [hzero]⟩
      · rw [if_neg hq] at h
        obtain rfl := Option.some.inj h
        exact ⟨h1, h2⟩
  | complete =>
    rw [uiStep] at h
    by_cases hp : 0 < s.inFlight
    · rw [if_pos hp] at h
      obtain rfl := Option.some.inj h
      constructor
      · show s.inFlight - 1 ≤ 1
        omega
      · show (false = true) ↔ (s.inFlight - 1 = 1)
        constructor
        · intro habs; cases habs
        · intro habs; exact absurd habs (by omega)
    · rw [if_neg hp] at h; exact absurd h (by simp)

/-- Running any event sequence from an invariant state stays invariant. -/
lemma uiRun_inv {s : UiState} (hs : UiInv s) (es : List UiEvent) :
    UiInv (uiRun s es) := by
  induction es generalizing s with
  | nil => exact hs
  | cons e es ih =>
    rw [uiRun]
    cases h : uiStep s e with
    | none => exact ih hs
    | some s2 => exact ih (uiStep_inv hs e h)

/-- C5: At every reachable point of a session, at most one query is in
flight; and a new query can never be issued while another is outstanding,
because the interface disables the query input and the send button while a
query is loading (so no control can trigger a form submission, and the
submission step is impossible). -/
theorem at_most_one_query_in_flight (es : List UiEvent) :
    (uiRun uiInit es).inFlight ≤ 1
  ∧ (∀ s : UiState, s.isQueryLoading = true →
      inputDisabled s = true ∧ sendDisabled s = true
        ∧ uiStep s UiEvent.submitForm = none) := by
  constructor
  · exact (uiRun_inv (by constructor <;> simp [uiInit]) es).1
  · intro s hl
    refine ⟨by simp [inputDisabled, hl], by simp [sendDisabled, hl], ?_⟩
    rw [uiStep]
    rw [if_pos (by simp [inputDisabled, sendDisabled, hl])]

/-- Witness for C5 at a concrete event sequence and a concrete loading
state. -/
theorem at_most_one_query_in_flight_witness :
    (uiRun uiInit
      [ UiEvent.setQuery "What is X?", UiEvent.submitForm
      , UiEvent.submitForm, UiEvent.complete ]).inFlight ≤ 1
  ∧ uiStep { isQueryLoading := true, query := "next", inFlight := 1 }
      UiEvent.submitForm = none :=
  ⟨(at_most_one_query_in_flight
      [ UiEvent.setQuery "What is X?", UiEvent.submitForm
      , UiEvent.submitForm, UiEvent.complete ]).1,
   ((at_most_one_query_in_flight []).2
      { isQueryLoading := true, query := "next", inFlight := 1 } rfl).2.2⟩

/-! ## C1: the polling protocol -/

/-- C1: After submission the orchestrator polls the operation handle at a
fixed 3-second interval until the handle's done flag is set, and once the
handle reports done (in the remote API a failed operation also reports
`done = true`, carrying its error payload) no further polls are issued for
that handle. Whenever the loop terminates: the final observed status is done;
a handle that is already done is never polled; the polls happen exactly at
3000 ms intervals after submission; every status observed before the last
poll was not done (so polling continued exactly until the first done report,
and no poll follows it); and the final status is the initially submitted one
when no poll happened, else the one returned by the last poll. -/
theorem pollLoop_spec (getOp : Nat → Operation) (op : Operation) (t k fuel : Nat)
    (r : PollResult) (h : pollLoop getOp op t k fuel = some r) :
    r.finalOp.done = true
  ∧ (op.done = true → r.pollTimes = [])
  ∧ r.pollTimes = (List.range r.pollTimes.length).map (fun j => t + 3000 * (j + 1))
  ∧ (∀ j, j + 1 < r.pollTimes.length → (getOp (k + j)).done = false)
  ∧ (r.pollTimes = [] → r.finalOp = op)
  ∧ (1 ≤ r.pollTimes.length → r.finalOp = getOp (k + r.pollTimes.length - 1)) := by
  revert h
  induction fuel generalizing op t k r with
  | zero =>
    intro h
    simp only [pollLoop] at h
    by_cases hd : op.done = true
    · rw [if_pos hd] at h
      obtain rfl := Option.some.inj h
      refine ⟨hd, fun _ => rfl, by simp, ?_, fun _ => rfl, ?_⟩
      · intro j hj; exact absurd hj (by simp)
      · intro h1; exact absurd h1 (by simp)
    · rw [if_neg hd] at h
      exact absurd h (by simp)
  | succ fuel ih =>
    intro h
    simp only [pollLoop] at h
    by_cases hd : op.done = true
    · rw [if_pos hd] at h
      obtain rfl := Option.some.inj h
      refine ⟨hd, fun _ => rfl, by simp, ?_, fun _ => rfl, ?_⟩
      · intro j hj; exact absurd hj (by simp)
      · intro h1; exact absurd h1 (by simp)
    · rw [if_neg hd] at h
      cases heq : pollLoop getOp (getOp k) (t + 3000) (k + 1) fuel with
      | none => rw [heq] at h; exact absurd h (by simp)
      | some r2 =>
        rw [heq] at h
        obtain rfl := Option.some.inj h
        obtain ⟨ih1, ih2, ih3, ih4, ih5, ih6⟩ := ih (getOp k) (t + 3000) (k + 1) r2 heq
        refine ⟨ih1, fun habs => absurd habs hd, ?_, ?_, ?_, ?_⟩
        · show (t + 3000) :: r2.pollTimes
            = (List.range (((t + 3000) :: r2.pollTimes).length)).map
                (fun j => t + 3000 * (j + 1))
          rw [List.length_cons, List.range_succ_eq_map, List.map_cons, List.map_map]
          refine List.cons_eq_cons.mpr ⟨?_, ?_⟩
          · show t + 3000 = t + 3000 * (0 + 1)
            omega
          · rw [ih3, List.length_map, List.length_range]
            apply List.map_congr_left
            intro a _
            simp only [Function.comp_apply, Nat.succ_eq_add_one]
            omega
        · intro j hj
          simp only [List.length_cons] at hj
          cases j with
          | zero =>
            cases hgk : (getOp k).done
            · simpa using hgk
            · have hnil := ih2 hgk
              rw [hnil] at hj
              exact absurd hj (by simp)
          | succ j2 =>
            have h4 := ih4 j2 (by omega)
            have hidx : k + 1 + j2 = k + (j2 + 1) := by omega
            rw [hidx] at h4
            exact h4
        · intro habs; exact absurd habs (by simp)
        · intro _
          show r2.finalOp = getOp (k + ((t + 3000) :: r2.pollTimes).length - 1)
          by_cases hn : r2.pollTimes.length = 0
          · rw [ih5 (List.length_eq_zero.mp hn), List.length_cons, hn]
            have hk : k + (0 + 1) - 1 = k := by omega
            rw [hk]
          · rw [ih6 (by omega), List.length_cons]
            have hk : k + 1 + r2.pollTimes.length - 1
                = k + (r2.pollTimes.length + 1) - 1 := by omega
            rw [hk]

/-- A concrete remote operation for the C1 witness: the handle becomes done
at the second poll. -/
def wGetOp : Nat → Operation := fun n => { done := decide (2 ≤ n), error := none }

/-- Witness for C1 at a concrete operation that completes on the second poll
(polls at 3000 ms and 6000 ms). -/
theorem pollLoop_spec_witness :
    pollLoop wGetOp { done := false, error := none } 0 1 5
      = some { pollTimes := [3000, 6000], finalOp := { done := true, error := none } }
  ∧ ({ pollTimes := [3000, 6000]
     , finalOp := { done := true, error := none } } : PollResult).finalOp.done = true :=
  ⟨by decide,
   (pollLoop_spec wGetOp { done := false, error := none } 0 1 5
      { pollTimes := [3000, 6000], finalOp := { done := true, error := none } }
      (by decide)).1⟩

/-! ## C2: sequential upload orchestration -/

/-- Every event of one file's block carries that file's input position. -/
lemma eventIndex_fileEvents {i total : Nat} {nm : String} {n : Nat} :
    ∀ e ∈ fileEvents i total nm n, eventIndex e = i := by
  intro e he
  simp only [fileEvents, List.mem_cons, List.mem_map, List.mem_range] at he
  rcases he with rfl | rfl | ⟨t2, _, rfl⟩ <;> simp [eventIndex]

/-- One file's block contains exactly one submission, that file's own. -/
lemma submissionsOf_fileEvents (i total : Nat) (nm : String) (n : Nat) :
    submissionsOf (fileEvents i total nm n) = [(i, nm)] := by
  simp [submissionsOf, subFn, fileEvents, List.filterMap_map, Function.comp]

/-- The positions of a list's enumeration are strictly increasing. -/
lemma enum_fst_pairwise {α : Type*} (l : List α) :
    List.Pairwise (fun p q : ℕ × α => p.1 < q.1) l.enum := by
  have h := List.pairwise_lt_range l.length
  rw [← List.enum_map_fst l] at h
  exact List.pairwise_map.mp h

/-- Mapping a function into singleton blocks and flattening is mapping. -/
lemma flatMap_singleton_map {α β : Type*} (l : List α) (f : α → β) :
    (l.flatMap fun x => [f x]) = l.map f := by
  induction l with
  | nil => rfl
  | cons a t ih => rw [List.flatMap_cons, ih]; rfl

/-- Each member's block appears contiguously inside a flattened map. -/
lemma flatMap_eq_append_of_mem {α β : Type*} (g : α → List β) {p : α} :
    ∀ {l : List α}, p ∈ l → ∃ l1 l2, l.flatMap g = l1 ++ (g p ++ l2) := by
  intro l
  induction l with
  | nil => intro hp; cases hp
  | cons a t ih =>
    intro hp
    rcases List.mem_cons.mp hp with rfl | hmem
    · exact ⟨[], t.flatMap g, by rw [List.flatMap_cons]; rfl⟩
    · obtain ⟨l1, l2, heq⟩ := ih hmem
      exact ⟨g a ++ l1, l2, by rw [List.flatMap_cons, heq, List.append_assoc]⟩

/-- C2: For every sequence of N files submitted for upload, the orchestrator
issues exactly N upload submissions, in the user-selected input order (the
trace's submissions are exactly the enumerated file names); the processing is
strictly sequential — the file position of successive trace events never
decreases, so all polling of one file's handle finishes before any event of a
later file, and no two submissions' polling overlaps — and each submission is
immediately followed by the progress report
`(currentIndex, totalFiles, currentFileName)` as the file starts. -/
theorem uploadAll_spec (files : List UFile) (polls : Nat → Nat) :
    (submissionsOf (uploadAll files polls) = files.enum.map fun p => (p.1, p.2.name))
  ∧ (submissionsOf (uploadAll files polls)).length = files.length
  ∧ ((uploadAll files polls).map eventIndex).Pairwise (· ≤ ·)
  ∧ (∀ i f, files[i]? = some f →
      ∃ l1 l2, uploadAll files polls
        = l1 ++ ([UploadEvent.submit i f.name,
                  UploadEvent.progress (i + 1) files.length f.name] ++ l2)) := by
  have hsub : submissionsOf (uploadAll files polls)
      = files.enum.map fun p => (p.1, p.2.name) := by
    rw [submissionsOf, uploadAll, List.filterMap_flatMap]
    have hcongr : files.enum.flatMap
          (fun p : ℕ × UFile =>
            List.filterMap subFn (fileEvents p.1 files.length p.2.name (polls p.1)))
        = files.enum.flatMap (fun p : ℕ × UFile => [(p.1, p.2.name)]) :=
      List.flatMap_congr
        (fun p _ => submissionsOf_fileEvents p.1 files.length p.2.name (polls p.1))
    rw [hcongr, flatMap_singleton_map]
  refine ⟨hsub, ?_, ?_, ?_⟩
  · rw [hsub, List.length_map, List.enum_length]
  · rw [List.pairwise_map, uploadAll, List.flatMap_def, List.pairwise_flatten]
    constructor
    · intro l2 hl2
      obtain ⟨p, _, rfl⟩ := List.mem_map.mp hl2
      apply List.pairwise_of_forall_mem_list
      intro a ha b hb
      rw [eventIndex_fileEvents a ha, eventIndex_fileEvents b hb]
    · rw [List.pairwise_map]
      refine (enum_fst_pairwise files).imp ?_
      intro p q hpq x hx y hy
      rw [eventIndex_fileEvents x hx, eventIndex_fileEvents y hy]
      omega
  · intro i f hi
    obtain ⟨l1, l2, heq⟩ := flatMap_eq_append_of_mem
      (fun p : ℕ × UFile => fileEvents p.1 files.length p.2.name (polls p.1))
      (List.mk_mem_enum_iff_getElem?.mpr hi)
    refine ⟨l1, (List.range (polls i)).map (fun t2 => UploadEvent.poll i (t2 + 1)) ++ l2, ?_⟩
    rw [uploadAll] at *
    rw [heq]
    simp [fileEvents]

/-- Witness for C2 at the concrete batch `["a.pdf", "b.txt"]` with one poll
per file. -/
theorem uploadAll_spec_witness :
    submissionsOf (uploadAll [{ name := "a.pdf" }, { name := "b.txt" }] (fun _ => 1))
      = [(0, "a.pdf"), (1, "b.txt")]
  ∧ ∃ l1 l2, uploadAll [{ name := "a.pdf" }, { name := "b.txt" }] (fun _ => 1)
      = l1 ++ ([UploadEvent.submit 1 "b.txt",
                UploadEvent.progress 2 2 "b.txt"] ++ l2) := by
  constructor
  · rw [(uploadAll_spec [{ name := "a.pdf" }, { name := "b.txt" }] (fun _ => 1)).1]
    rfl
  · exact (uploadAll_spec [{ name := "a.pdf" }, { name := "b.txt" }]
      (fun _ => 1)).2.2.2 1 { name := "b.txt" } rfl

end FileSearchEz
